import Mathlib

/-!
Verification development for the restapy query/filter-building layer.

The Python source (restapy/filters.py, restapy/db.py, restapy/models.py,
restapy/exceptions.py) is shallowly embedded below: field names and other
Python strings are `List Char`, Python dicts are association lists, Python
exceptions become `Except` error values carrying the exception kind, and
SQLAlchemy expressions become the syntax tree `SAExpr` with an executable
row-level evaluation.
-/

deriving instance DecidableEq for Except

namespace Restapy

/-- Python strings are embedded as `List Char`; `nm` builds one from a literal. -/
def nm (s : String) : List Char := s.data

/-- `Conditions` (filters.py): the closed StrEnum of filter operator kinds. -/
inductive Conditions
  | eq | ne | gt | lt | ge | le | like | ilike
  deriving DecidableEq

/-- Member enumeration order of the StrEnum (definition order). -/
def Conditions.all : List Conditions :=
  [.eq, .ne, .gt, .lt, .ge, .le, .like, .ilike]

/-- `Conditions.likes` (filters.py): the pattern-family group. -/
def Conditions.likes : List Conditions := [.like, .ilike]

/-- `Conditions.exacts` (filters.py): the equality-family group. -/
def Conditions.exacts : List Conditions := [.eq, .ne]

/-- `Conditions.comparisons` (filters.py): the ordering-family group. -/
def Conditions.comparisons : List Conditions := [.ge, .le, .gt, .lt]

/-- The StrEnum value (= member name) of each operator. -/
def Conditions.value : Conditions → List Char
  | .eq => nm "eq"
  | .ne => nm "ne"
  | .gt => nm "gt"
  | .lt => nm "lt"
  | .ge => nm "ge"
  | .le => nm "le"
  | .like => nm "like"
  | .ilike => nm "ilike"

/-- `Conditions[s]`: name-indexed member lookup; `none` models the KeyError. -/
def condOfValue (s : List Char) : Option Conditions :=
  Conditions.all.find? (fun c => c.value == s)

/-- Cons a character onto the head chunk of a split result (helper for the
`str.split` embeddings). -/
def consHead (c : Char) : List (List Char) → List (List Char)
  | [] => [[c]]
  | h :: t => (c :: h) :: t

/-- Python `s.split("__")`: split on non-overlapping leftmost occurrences of
a double underscore. -/
def splitUU : List Char → List (List Char)
  | [] => [[]]
  | [c] => [[c]]
  | c :: d :: rest =>
    if c = '_' ∧ d = '_' then [] :: splitUU rest
    else consHead c (splitUU (d :: rest))

/-- Python `s.split("_")`: split on single underscores. -/
def splitU : List Char → List (List Char)
  | [] => [[]]
  | c :: rest => if c = '_' then [] :: splitU rest else consHead c (splitU rest)

/-- Python `str.title` on one underscore-free chunk: the first letter of each
letter-group is uppercased, the following letters lowercased. -/
def titleGo : Bool → List Char → List Char
  | _, [] => []
  | prevAlpha, c :: rest =>
    (if c.isAlpha then (if prevAlpha then c.toLower else c.toUpper) else c)
      :: titleGo c.isAlpha rest

/-- Python `str.title`. -/
def pyTitle (s : List Char) : List Char := titleGo false s

/-- Python `str.lower`. -/
def pyLower (s : List Char) : List Char := s.map Char.toLower

/-- `QueryPars.camel` (filters.py): snake_case to camelCase. -/
def camel (snake_str : List Char) : List Char :=
  match splitU snake_str with
  | [] => []
  | first :: others => pyLower first ++ (others.map pyTitle).flatten

/-- `QueryModelBase.parse_filter` (filters.py): recover
(base attribute, operator, is-membership) from an internal filter name.
`.error` models the KeyError raised by `Conditions[...]` on an unknown
operator suffix. -/
def parse_filter (field : List Char) : Except (List Char) (List Char × Conditions × Bool) :=
  let multi : Bool := decide ((nm "__in") <:+ field)
  let base := if multi then field.take (field.length - 4) else field
  match splitUU base with
  | [f] => .ok (f, .eq, multi)
  | f :: c :: _ =>
    match condOfValue c with
    | some cond => .ok (f, cond, multi)
    | none => .error (nm "KeyError")
  | [] => .error (nm "KeyError")

/-- `QueryPars.field_names` (filters.py): the internal scalar name, external
alias, and internal membership name generated for (field, operator). -/
def field_names (field_name : List Char) (cond : Conditions) :
    List Char × List Char × List Char :=
  let camelname := camel field_name
  if cond = .eq then
    (field_name, camelname, field_name ++ nm "__in")
  else
    let fname := field_name ++ nm "__" ++ cond.value
    (fname, camelname ++ '[' :: cond.value ++ [']'], fname ++ nm "__in")

/-- The concrete Python value types that occur in model annotations.
`EmailStr` is the string-equivalent specialized type normalized away by the
classifier; `noneT` is `NoneType`. -/
inductive PyType
  | boolT | strT | intT | floatT | noneT | emailT
  deriving DecidableEq

/-- A model field's declared annotation: either a plain type (`get_args`
returns nothing) or a `Union`/`Optional` with member types. -/
inductive Annotation
  | plain (t : PyType)
  | union (ts : List PyType)
  deriving DecidableEq

/-- A synthesized pydantic annotation for a generated schema field.
`unionA ts orNone` is `Union[tuple(ts (| {None}))]`, `seqUnionA ts` is
`Union[tuple(list[t] for t in ts)]`, `literalListA vs` is
`list[Literal[vs]]`, `plainListA` is a bare `list`. -/
inductive Ann
  | tyA (t : PyType)
  | unionA (ts : List PyType) (orNone : Bool)
  | seqUnionA (ts : List PyType)
  | literalListA (vs : List (List Char))
  | plainListA
  deriving DecidableEq

/-- A schema field's annotation as seen by the filter machinery: either a
generated/base annotation (no `_sql_cond` attribute) or a custom predicate
type (Levenshtein/MultiLike), which carries `_sql_cond`. -/
inductive FAnn
  | gen (a : Ann)
  | customTy
  deriving DecidableEq

/-- `hasattr(annotation, "_sql_cond")` on a schema field's annotation. -/
def FAnn.hasSqlCond : FAnn → Bool
  | .customTy => true
  | .gen _ => false

/-- The (annotation, pydantic Field) pair stored for one generated schema
attribute: annotation, external alias, forwarded description. -/
structure GenField where
  fann : FAnn
  alias? : Option (List Char)
  descr : Option (List Char)
  deriving DecidableEq

/-- A model field's pydantic `FieldInfo`. `hasPrimaryKeyAttr` embeds
`hasattr(field_info, "primary_key")`, the marker `DbModel.update` uses to
recognize primary-key fields. -/
structure FieldInfo where
  annotation : Annotation
  description : Option (List Char) := none
  hasPrimaryKeyAttr : Bool := false
  deriving DecidableEq

/-- A SQLModel model class: its `__name__`, its `__class__.__name__` (the
metaclass name — `"SQLModelMetaclass"` for every SQLModel subclass), and its
`model_fields` dict. -/
structure SQLModel where
  name : List Char
  clsName : List Char := nm "SQLModelMetaclass"
  model_fields : List (List Char × FieldInfo)
  deriving DecidableEq

/-- An instrumented model attribute passed to `QueryPars.build`: its field
name and the model it lives on (`_annotations["parententity"].entity`). -/
structure FieldRef where
  name : List Char
  parent : SQLModel
  deriving DecidableEq

/-- `QueryPars._cond_valid_for` (filters.py): which operators are legal for
a field with the given set of value types. -/
def cond_valid_for (cond : Conditions) (types : List PyType) : Bool :=
  if types.contains .boolT then Conditions.exacts.contains cond
  else if types.contains .strT then !Conditions.comparisons.contains cond
  else !Conditions.likes.contains cond

/-- `QueryPars._normalize_field_types` (filters.py): the set of concrete
value types of a field — union members with `NoneType` removed (a plain
annotation is kept as a singleton, even `NoneType`), `EmailStr` normalized
to `str`. Python sets are embedded as deduplicated lists. -/
def normalize_field_types (field : FieldRef) : Except (List Char) (List PyType) :=
  match field.parent.model_fields.lookup field.name with
  | none => .error (nm "KeyError")
  | some fi =>
    let types :=
      match fi.annotation with
      | .plain t => [t]
      | .union ts => (ts.filter (fun t => t ≠ PyType.noneT)).dedup
    .ok ((types.map (fun t => if t = .emailT then .strT else t)).dedup)

/-- The loop body of `QueryPars._field_filter_attrs` (filters.py) after the
two dict lookups: for each legal operator emit the scalar parameter, and for
equality-family operators on non-boolean fields also the membership
parameter. `.error` models the `TypeError` Python raises building
`Union[()]` when the type set is empty (the first legal non-equality
operator triggers it). -/
def field_filter_attrs (fname : List Char) (types : List PyType)
    (descr : Option (List Char)) : Except (List Char) (List (List Char × GenField)) :=
  if types.isEmpty then .error (nm "TypeError")
  else .ok <| Conditions.all.foldr (fun cond acc =>
    if cond_valid_for cond types then
      let names := field_names fname cond
      let ann : Ann :=
        if types.contains .boolT then .tyA .boolT
        else if Conditions.exacts.contains cond then .unionA types true
        else .unionA types false
      let scalar := (names.1, GenField.mk (.gen ann) (some names.2.1) descr)
      if Conditions.exacts.contains cond && !types.contains .boolT then
        scalar ::
          (names.2.2, GenField.mk (.gen (.seqUnionA types)) (some (names.2.1 ++ nm "[]")) descr)
          :: acc
      else scalar :: acc
    else acc) []

/-- Claim-side legality (C2's wording): a boolean-typed field admits only the
equality family; a string-typed field admits everything except the ordering
family; every other scalar field admits everything except the pattern
family. -/
def claimLegal (cond : Conditions) (types : List PyType) : Bool :=
  (types.contains .boolT && Conditions.exacts.contains cond) ||
  (!types.contains .boolT && types.contains .strT
      && !Conditions.comparisons.contains cond) ||
  (!types.contains .boolT && !types.contains .strT
      && !Conditions.likes.contains cond)

/-- Claim-side generated parameter set (C2's wording): one scalar parameter
per legal operator, plus, for each equality-family operator on a non-boolean
field, one membership parameter accepting a sequence of the field's value
types; nothing else. -/
def claimFieldParams (fname : List Char) (types : List PyType)
    (descr : Option (List Char)) : List (List Char × GenField) :=
  Conditions.all.foldr (fun cond acc =>
    if claimLegal cond types then
      let names := field_names fname cond
      let ann : Ann :=
        if types.contains .boolT then .tyA .boolT
        else if Conditions.exacts.contains cond then .unionA types true
        else .unionA types false
      let scalar := (names.1, GenField.mk (.gen ann) (some names.2.1) descr)
      if Conditions.exacts.contains cond && !types.contains .boolT then
        scalar ::
          (names.2.2, GenField.mk (.gen (.seqUnionA types)) (some (names.2.1 ++ nm "[]")) descr)
          :: acc
      else scalar :: acc
    else acc) []

/-- Python dict insertion: replace in place if the key exists, else append. -/
def dictInsert (d : List (List Char × GenField)) (k : List Char) (v : GenField) :
    List (List Char × GenField) :=
  if d.any (fun kv => kv.1 == k) then
    d.map (fun kv => if kv.1 == k then (k, v) else kv)
  else d ++ [(k, v)]

/-- Lexicographic order on embedded strings (for Python `sorted`). -/
def lexLe : List Char → List Char → Bool
  | [], _ => true
  | _ :: _, [] => false
  | a :: as, b :: bs => if a = b then lexLe as bs else decide (a.toNat < b.toNat)

/-- Insert into a sorted list (helper for the sort embedding). -/
def isortInsert (le : α → α → Bool) (x : α) : List α → List α
  | [] => [x]
  | y :: ys => if le x y then x :: y :: ys else y :: isortInsert le x ys

/-- Insertion sort, embedding Python `sorted` / SQL ORDER BY application. -/
def isort (le : α → α → Bool) : List α → List α
  | [] => []
  | x :: xs => isortInsert le x (isort le xs)

/-- `QueryPars._order_by_annot` (filters.py): `list[Literal[...]]` over
the sorted field names and their `.desc` variants. -/
def order_by_annot (model : SQLModel) : Ann :=
  let fields := model.model_fields.map (fun kv => kv.1)
  .literalListA (isort lexLe (fields ++ fields.map (fun k => k ++ nm ".desc")))

/-- The fields `QueryModelBase` (filters.py) contributes to every generated
schema: `page` (default 0), `per_page`, `order_by`, `project`. -/
def baseSchemaFields : List (List Char × GenField) :=
  [(nm "page", GenField.mk (.gen (.tyA .intT)) none none),
   (nm "per_page", GenField.mk (.gen (.tyA .intT)) (some (nm "perPage")) none),
   (nm "order_by", GenField.mk (.gen .plainListA) (some (nm "orderBy")) none),
   (nm "project", GenField.mk (.gen .plainListA) none none)]

/-- `QueryModelBase.base_fields` (filters.py). -/
def base_fields : List (List Char) :=
  [nm "page", nm "per_page", nm "order_by", nm "project"]

/-- The schema type produced by `QueryPars.build`: target model, search
method name, and the full `model_fields` dict of the created class. -/
structure Schema where
  model : SQLModel
  search_mth : Option (List Char)
  attrs : List (List Char × GenField)
  deriving DecidableEq

/-- `QueryPars._field_filter_attrs` (filters.py) including its two dict
lookups: `model.model_fields[field.name]` on the build model (for the
description) and on the field's own parent (inside
`_normalize_field_types`); `.error` models the KeyError. -/
def field_filter_attrs_full (field : FieldRef) (model : SQLModel) :
    Except (List Char) (List (List Char × GenField)) :=
  match model.model_fields.lookup field.name with
  | none => .error (nm "KeyError")
  | some pf => do
    let types ← normalize_field_types field
    field_filter_attrs field.name types pf.description

/-- `QueryPars.build` (filters.py): synthesize a schema from instrumented
fields, a search-method name and extra keyword fields. `.error` models the
`IndexError` of `fields[0]` on an empty field list and the propagated
KeyError/TypeError of `_field_filter_attrs`. `create_model` with
`__base__=QueryModelBase` is embedded as merging the generated attrs over
the base fields. -/
def build (fields : List FieldRef) (search_method : Option (List Char))
    (kwfields : List (List Char × FAnn)) : Except (List Char) Schema :=
  match fields with
  | [] => .error (nm "IndexError")
  | f0 :: _ => do
    let model := f0.parent
    let class_attrs : List (List Char × GenField) :=
      [(nm "order_by", GenField.mk (.gen (order_by_annot model)) (some (nm "orderBy")) none),
       (nm "project",
        GenField.mk (.gen (.literalListA (model.model_fields.map (fun kv => kv.1)))) none none)]
    let gen ← fields.foldlM (fun acc f => do
      let attrs ← field_filter_attrs_full f model
      pure (attrs.foldl (fun d kv => dictInsert d kv.1 kv.2) acc)) class_attrs
    let withKw := kwfields.foldl
      (fun d kv => dictInsert d kv.1 (GenField.mk kv.2 none none)) gen
    let allAttrs := withKw.foldl (fun d kv => dictInsert d kv.1 kv.2) baseSchemaFields
    pure (Schema.mk model search_method allAttrs)

/-- A Python value, as appearing in dumped filter data and store rows. -/
inductive PyVal
  | int (i : Int)
  | str (s : List Char)
  | bool (b : Bool)
  | none
  | list (vs : List PyVal)

instance : Inhabited PyVal := ⟨.none⟩
instance : Inhabited PyType := ⟨.noneT⟩
instance : Inhabited Annotation := ⟨.plain .noneT⟩
instance : Inhabited FieldInfo := ⟨.mk (.plain .noneT) Option.none false⟩
instance : Inhabited FAnn := ⟨.customTy⟩

/-- `str(value)` for the values that reach `f"%{value}%"`; the repr of list
values (which never legally reach a pattern operator) is elided. -/
def strOfVal : PyVal → List Char
  | .str s => s
  | .int i => (toString i).data
  | .bool b => if b then nm "True" else nm "False"
  | .none => nm "None"
  | .list _ => nm "[list]"

/-- The comparator methods `_sql_cond` (db.py) resolves on a model column:
the dunder comparisons, `like`/`ilike`, and `in_`/`not_in`. -/
inductive SAOp
  | eq | ne | gt | lt | ge | le | like | ilike | in_ | not_in
  deriving DecidableEq

/-- A SQLAlchemy boolean expression over one row: `true` (the SQLAlchemy
literal `True`), an atomic column/comparator/value condition, and the
`and_`/`or_` combinators (custom predicates render into these). -/
inductive SAExpr
  | true_
  | cond (attr : List Char) (op : SAOp) (value : PyVal)
  | and_ (es : List SAExpr)
  | or_ (es : List SAExpr)

/-- A supplied filter value: a plain dumped value, or an instance of a
custom predicate type, which carries `_sql_cond(model)` rendering a
SQLAlchemy expression. -/
inductive FilterVal
  | plain (v : PyVal)
  | custom (render : SQLModel → SAExpr)

instance : Inhabited FilterVal := ⟨.plain .none⟩

/-- A populated, validated parameter instance (one request's realized
filters). `schema_fields` is the schema class's `model_fields` dict
restricted to what the filter machinery reads (name and annotation);
`supplied` is `model_dump(exclude_unset=True)`; the base parameters are the
instance attributes `page`, `per_page`, `order_by`, `project` (and also
appear in `supplied` when explicitly set). -/
structure QueryInstance where
  model : Option SQLModel
  search_mth : Option (List Char)
  schema_fields : List (List Char × FAnn)
  supplied : List (List Char × FilterVal)
  page : Int := 0
  per_page : Option Int := Option.none
  order_by : Option (List (List Char)) := Option.none
  project : Option (List (List Char)) := Option.none

/-- `QueryModelBase.model_filters` (filters.py): the (field, value) pairs
compiled into WHERE conjuncts — supplied fields whose raw name is a model
attribute or whose annotation carries `_sql_cond`. -/
def model_filters (M : SQLModel) (inst : QueryInstance) :
    List (List Char × FilterVal) :=
  let model_attrs := M.model_fields.map (fun kv => kv.1)
  inst.schema_fields.filterMap (fun kf =>
    match inst.supplied.lookup kf.1 with
    | Option.none => Option.none
    | some v =>
      if model_attrs.contains kf.1 || kf.2.hasSqlCond then some (kf.1, v)
      else Option.none)

/-- `DbInterface._sql_cond` (db.py): build the atomic SQLAlchemy condition
for one filter. A custom value's `_sql_cond(model)` is used verbatim;
otherwise the filter name is parsed and the operator mapped to the model
attribute's comparator method, wrapping the value in `%` markers for the
pattern operators. `.error` models the KeyError of the membership-getter
dict on non-equality membership, the KeyError of `Conditions[...]`, and the
AttributeError of `getattr(model, attr)` on an undeclared attribute. -/
def sql_cond (M : SQLModel) (filter_field : List Char) (value : FilterVal) :
    Except (List Char) SAExpr :=
  match value with
  | .custom render => .ok (render M)
  | .plain v => do
    let (model_attr, condition, multi) ← parse_filter filter_field
    let getter ← (
      if Conditions.likes.contains condition then
        .ok (match condition with | .ilike => SAOp.ilike | _ => SAOp.like)
      else if multi then
        match condition with
        | .eq => .ok SAOp.in_
        | .ne => .ok SAOp.not_in
        | _ => .error (nm "KeyError")
      else
        .ok (match condition with
          | .eq => SAOp.eq | .ne => SAOp.ne | .gt => SAOp.gt | .lt => SAOp.lt
          | .ge => SAOp.ge | .le => SAOp.le | .like => SAOp.like | .ilike => SAOp.ilike)
        : Except (List Char) SAOp)
    let v := if Conditions.likes.contains condition then
        PyVal.str ('%' :: strOfVal v ++ ['%'])
      else v
    if (M.model_fields.lookup model_attr).isSome then
      .ok (.cond model_attr getter v)
    else .error (nm "AttributeError")

/-- `DbInterface._where_from_filters` (db.py): `and_(True, *conds)` over the
per-filter conditions. -/
def where_from_filters (M : SQLModel) (inst : QueryInstance) :
    Except (List Char) SAExpr := do
  let conds ← (model_filters M inst).mapM (fun kv => sql_cond M kv.1 kv.2)
  pure (.and_ (.true_ :: conds))

mutual
/-- Structural equality of Python values (SQL `=` on the embedded values). -/
def pyEqB : PyVal → PyVal → Bool
  | .int a, .int b => a == b
  | .str a, .str b => a == b
  | .bool a, .bool b => a == b
  | .none, .none => true
  | .list as, .list bs => pyEqListB as bs
  | _, _ => false
/-- Pointwise equality of Python value lists. -/
def pyEqListB : List PyVal → List PyVal → Bool
  | [], [] => true
  | a :: as, b :: bs => pyEqB a b && pyEqListB as bs
  | _, _ => false
end

/-- Strict order on Python values for the SQL ordering comparators (defined
on numbers and strings; other comparisons are store-defined and modelled as
false). -/
def pyLtB : PyVal → PyVal → Bool
  | .int a, .int b => a < b
  | .str a, .str b => lexLe a b && a != b
  | _, _ => false

/-- SQL `LIKE` with a `%`-wrapped pattern, modelled as a substring test
(case-folded when `ci` is set). -/
def likeTest (ci : Bool) (x pat : PyVal) : Bool :=
  match x, pat with
  | .str s, .str p =>
    let core := ((p.dropWhile (fun c => c = '%')).reverse.dropWhile
      (fun c => c = '%')).reverse
    if ci then decide (pyLower core <:+: pyLower s)
    else decide (core <:+: s)
  | _, _ => false

/-- Row-level semantics of one comparator. -/
def evalOp (op : SAOp) (x v : PyVal) : Bool :=
  match op with
  | .eq => pyEqB x v
  | .ne => !pyEqB x v
  | .gt => pyLtB v x
  | .lt => pyLtB x v
  | .ge => !pyLtB x v
  | .le => !pyLtB v x
  | .like => likeTest false x v
  | .ilike => likeTest true x v
  | .in_ => match v with
    | .list vs => vs.any (fun w => pyEqB x w)
    | _ => false
  | .not_in => match v with
    | .list vs => !vs.any (fun w => pyEqB x w)
    | _ => false

/-- A store row: a valuation of column names (absent columns read as SQL
NULL). -/
def Row : Type := List Char → PyVal

/-- Row-level semantics of a SQLAlchemy boolean expression. -/
def evalExpr (r : Row) : SAExpr → Bool
  | .true_ => true
  | .cond attr op v => evalOp op (r attr) v
  | .and_ es => es.attach.all (fun e => evalExpr r e.1)
  | .or_ es => es.attach.any (fun e => evalExpr r e.1)
  termination_by e => sizeOf e
  decreasing_by
    all_goals
      have h := List.sizeOf_lt_of_mem e.2
      simp
      omega

/-- The column list of an assembled query: the full model, an explicit
projection, or the `count()` aggregate. -/
inductive QCols
  | model
  | proj (fields : List (List Char))
  | countStar
  deriving DecidableEq

/-- An assembled SQLAlchemy query: column list, WHERE expression, ORDER BY
attributes as (column, is-descending) pairs, and optional LIMIT/OFFSET. -/
structure SAQuery where
  cols : QCols
  whereE : SAExpr
  order : List (List Char × Bool) := []
  lim : Option Int := Option.none
  off : Option Int := Option.none

/-- Python `".desc" in f` / `f.replace(".desc", "")`, via splitting on the
substring `.desc`. -/
def splitDesc : List Char → List (List Char)
  | [] => [[]]
  | c :: rest =>
    if ['.', 'd', 'e', 's', 'c'].isPrefixOf (c :: rest) then
      [] :: splitDesc ((c :: rest).drop 5)
    else consHead c (splitDesc rest)
  termination_by l => l.length
  decreasing_by
    · simp [List.length_drop]
      omega
    · simp

/-- `DbInterface.order_attrs` (db.py), one entry: the target attribute
(every `.desc` occurrence removed) and whether the verse is descending. -/
def order_attr (f : List Char) : List Char × Bool :=
  ((splitDesc f).flatten, decide (['.', 'd', 'e', 's', 'c'] <:+: f))

/-- Truthiness of the optional int `per_page` (None and 0 are falsy). -/
def truthyInt : Option Int → Bool
  | Option.none => false
  | some n => n != 0

/-- Truthiness of an optional list (None and [] are falsy). -/
def truthyList (l : Option (List α)) : Bool :=
  match l with
  | Option.none => false
  | some [] => false
  | some (_ :: _) => true

/-- `DbInterface.query_from_filters` (db.py): base selection (projection or
full model), the compiled WHERE, and the order-by attributes. `.error`
models the AttributeError raised when the schema has no model, plus
propagated compilation errors. -/
def query_from_filters (inst : QueryInstance) : Except (List Char) SAQuery :=
  match inst.model with
  | Option.none => .error (nm "AttributeError")
  | some M => do
    let w ← where_from_filters M inst
    let cols : QCols :=
      match inst.project with
      | some (p :: ps) => .proj (p :: ps)
      | _ => .model
    let q : SAQuery := SAQuery.mk cols w [] Option.none Option.none
    match inst.order_by with
    | some (o :: os) => pure { q with order := (o :: os).map order_attr }
    | _ => pure q

/-- `DbInterface.count_query` (db.py): the `count(*)` twin — same WHERE,
`select_from` the model, column list replaced by the count aggregate,
ordering stripped. -/
def count_query (q : SAQuery) (_fromModel : Option SQLModel) : SAQuery :=
  { q with cols := .countStar, order := [] }

/-- `QueryModelBase.offset` (filters.py): `page * per_page`. -/
def instOffset (inst : QueryInstance) (pp : Int) : Int := inst.page * pp

/-- `DbInterface.pagination_queries` (db.py): when `per_page` is truthy,
derive the count twin from the (still unpaginated) query, then apply
limit/offset to the main query; otherwise leave the query alone and produce
no count query. -/
def pagination_queries (inst : QueryInstance) (q : SAQuery) :
    SAQuery × Option SAQuery :=
  match inst.per_page with
  | some pp =>
    if pp != 0 then
      ({ q with lim := some pp, off := some (instOffset inst pp) },
       some (count_query q inst.model))
    else (q, Option.none)
  | Option.none => (q, Option.none)

/-- Execute a row query against a table: filter by the WHERE expression,
apply ordering (abstracted by the length-preserving sort under `le`), then
offset and limit. -/
def runRows (table : List Row) (le : Row → Row → Bool) (q : SAQuery) :
    List Row :=
  let m := table.filter (fun r => evalExpr r q.whereE)
  let m := if q.order.isEmpty then m else isort le m
  let m := match q.off with
    | some o => m.drop o.toNat
    | Option.none => m
  match q.lim with
  | some l => m.take l.toNat
  | Option.none => m

/-- Execute a count query: the number of rows matching its WHERE. -/
def runCount (table : List Row) (q : SAQuery) : Nat :=
  (table.filter (fun r => evalExpr r q.whereE)).length

/-- `r._mapping` restricted to a projection: non-projected columns are no
longer exposed. -/
def projectRow (fields : List (List Char)) (r : Row) : Row :=
  fun k => if fields.contains k then r k else .none

/-- The row data `_search` (db.py) returns for an assembled query: the
executed rows, converted to `_mapping`s when a projection was supplied. -/
def search_data (table : List Row) (le : Row → Row → Bool)
    (inst : QueryInstance) (q : SAQuery) : List Row :=
  let data := runRows table le q
  match inst.project with
  | some (p :: ps) => data.map (projectRow (p :: ps))
  | _ => data

/-- `DbInterface._search` (db.py): build the query, derive pagination and
count twin, execute both, convert projected rows to mappings, and return
`(data, count or len(data))`. -/
def search_exec (table : List Row) (le : Row → Row → Bool)
    (inst : QueryInstance) : Except (List Char) (List Row × Nat) := do
  let base_query ← query_from_filters inst
  let (q, countQ) := pagination_queries inst base_query
  let count : Option Nat := countQ.map (runCount table)
  let data := search_data table le inst q
  pure (data,
    match count with
    | some c => if c ≠ 0 then c else data.length
    | Option.none => data.length)

/-- `QueryModelBase.has_custom_filters` (filters.py): does the schema
declare a field whose parsed base name is outside the base parameters and
the model's attributes, without a `_sql_cond` annotation? Short-circuits at
the first such field; `.error` models the AttributeError of a schema with
no model and the KeyError of an unparsable declared name. -/
def has_custom_filters (inst : QueryInstance) : Except (List Char) Bool :=
  match inst.model with
  | Option.none => .error (nm "AttributeError")
  | some M =>
    let model_attrs := M.model_fields.map (fun kv => kv.1)
    inst.schema_fields.anyM (fun kf => do
      let (k, _, _) ← parse_filter kf.1
      pure (!(base_fields.contains k || model_attrs.contains k)
        && !kf.2.hasSqlCond))

/-- The outcome of `DbInterface.search`: a dispatch to a named facade
method, or the rows and total of the standard search. -/
inductive SearchResult
  | dispatched (m : List Char)
  | results (rows : List Row) (total : Nat)

/-- `DbInterface.search` (db.py): dispatch to the schema's named search
method when the schema has custom filters (failing with
NotImplementedError when the name is None or missing on the facade),
otherwise run the standard `_search`. `facade` is the set of method names
the interface subclass defines. -/
def db_search (table : List Row) (le : Row → Row → Bool)
    (facade : List (List Char)) (inst : QueryInstance) :
    Except (List Char) SearchResult := do
  let custom ← has_custom_filters inst
  if custom then
    match inst.search_mth with
    | Option.none => .error (nm "NotImplementedError")
    | some m =>
      if facade.contains m then pure (.dispatched m)
      else .error (nm "NotImplementedError")
  else do
    let rt ← search_exec table le inst
    pure (.results rt.1 rt.2)

/-- A model instance's field valuation (pydantic defaults everything absent
to None, embedded as `Option.none`). -/
def Inst : Type := List Char → Option PyVal

/-- One iteration of the `DbModel.update` loop (models.py): skip the pair
when its name is not among the model's fields or the FieldInfo carries the
`primary_key` attribute, else `setattr`. -/
def model_update_step (m : SQLModel) (st : Inst) (kv : List Char × PyVal) :
    Inst :=
  match m.model_fields.lookup kv.1 with
  | Option.none => st
  | some fi =>
    if fi.hasPrimaryKeyAttr then st
    else fun x => if x = kv.1 then some kv.2 else st x

/-- `DbModel.update` (models.py): bulk-assign a data mapping onto an
instance, silently skipping names not among the model's fields and fields
whose FieldInfo carries the `primary_key` attribute. -/
def model_update (m : SQLModel) (inst : Inst) (data : List (List Char × PyVal)) :
    Inst :=
  data.foldl (model_update_step m) inst

/-- `NotFoundException` (exceptions.py): carries the kind string and id it
was constructed with. -/
structure NotFoundExc where
  kind : List Char
  instance_id : Int
  deriving DecidableEq

/-- The 404 detail string of `NotFoundException`. -/
def NotFoundExc.detail (e : NotFoundExc) : List Char :=
  e.kind ++ nm " with id " ++ (toString e.instance_id).data ++ nm " not found"

/-- An externally-owned store session, viewed through one model type: the
persisted rows keyed by primary key, and the instances staged via
`session.add`. -/
structure DbSession where
  store : List (Int × Inst)
  staged : List Inst

/-- `DbInterface.get` (db.py): primary-key lookup; on a miss raises
`NotFoundException(model.__class__.__name__, instance_id)` — note the kind
passed is the metaclass name `model.__class__.__name__`, not the model's
own `__name__`. -/
def db_get (s : DbSession) (model : SQLModel) (instance_id : Int) :
    Except NotFoundExc Inst :=
  match s.store.lookup instance_id with
  | some inst => .ok inst
  | Option.none => .error (NotFoundExc.mk model.clsName instance_id)

/-- `DbInterface.update` (db.py): fetch-or-fail, bulk-assign, stage. On
success returns the updated session (instance staged) and the instance. -/
def db_update (s : DbSession) (model : SQLModel) (instance_id : Int)
    (data : List (List Char × PyVal)) : Except NotFoundExc (DbSession × Inst) := do
  let inst ← db_get s model instance_id
  let inst := model_update model inst data
  pure ({ s with staged := s.staged ++ [inst] }, inst)

/-- `DbInterface.upsert` (db.py): like update, but a NotFound during the
fetch is recovered by constructing a fresh `model()` instance. -/
def db_upsert (s : DbSession) (model : SQLModel) (instance_id : Int)
    (data : List (List Char × PyVal)) : DbSession × Inst :=
  let inst : Inst :=
    match db_get s model instance_id with
    | .ok i => i
    | .error _ => fun _ => Option.none
  let inst := model_update model inst data
  ({ s with staged := s.staged ++ [inst] }, inst)

/-- A sample model: `User(id: int (primary key), age: int, name: str)`. -/
def userModel : SQLModel :=
  SQLModel.mk (nm "User") (nm "SQLModelMetaclass")
    [(nm "id", FieldInfo.mk (.plain .intT) Option.none true),
     (nm "age", FieldInfo.mk (.plain .intT) Option.none false),
     (nm "name", FieldInfo.mk (.plain .strT) Option.none false)]

/-- The schema fields synthesized over `userModel`'s `age` column (base
parameters plus the `age` filter family), as seen by the filter machinery. -/
def userAgeSchemaFields : List (List Char × FAnn) :=
  baseSchemaFields.map (fun kv => (kv.1, kv.2.fann)) ++
    [(nm "age", .gen (.unionA [.intT] true)),
     (nm "age__in", .gen (.seqUnionA [.intT])),
     (nm "age__ne", .gen (.unionA [.intT] true)),
     (nm "age__gt", .gen (.unionA [.intT] false))]

/-- A request over the `User` schema supplying only the operator-suffixed
filter `age__gt = 5`. -/
def ageGtInstance : QueryInstance :=
  { model := some userModel
    search_mth := Option.none
    schema_fields := userAgeSchemaFields
    supplied := [(nm "age__gt", .plain (.int 5))] }

/-- A model that happens to declare a column named `page`:
`Book(id: int (primary key), page: int, title: str)`. -/
def bookModel : SQLModel :=
  SQLModel.mk (nm "Book") (nm "SQLModelMetaclass")
    [(nm "id", FieldInfo.mk (.plain .intT) Option.none true),
     (nm "page", FieldInfo.mk (.plain .intT) Option.none false),
     (nm "title", FieldInfo.mk (.plain .strT) Option.none false)]

/-- A request over the `Book` schema supplying only the base pagination
parameter `page = 1`. -/
def bookPageInstance : QueryInstance :=
  { model := some bookModel
    search_mth := Option.none
    schema_fields := baseSchemaFields.map (fun kv => (kv.1, kv.2.fann)) ++
      [(nm "title", .gen (.unionA [.strT] true))]
    supplied := [(nm "page", .plain (.int 1))]
    page := 1 }

/-- Whether an `Except` computation succeeded. -/
def isOkE {ε α : Type} : Except ε α → Bool
  | .ok _ => true
  | .error _ => false

/-- The claim-side custom-filter condition of C5: the schema declares at
least one field whose (parsed) base name is outside the base parameter set
and the model's own fields and whose annotation does not carry a
custom-predicate override. -/
def claim_declares_custom (M : SQLModel) (inst : QueryInstance) : Bool :=
  inst.schema_fields.any (fun kf =>
    match parse_filter kf.1 with
    | .ok (k, _, _) =>
      !(base_fields.contains k
          || (M.model_fields.map (fun p => p.1)).contains k)
        && !kf.2.hasSqlCond
    | .error _ => false)

/-- A schema over `User` with an extra keyword field `q` (no `_sql_cond`)
and a declared search method name, plus an empty request. -/
def customSchemaInstance : QueryInstance :=
  { model := some userModel
    search_mth := some (nm "search_users")
    schema_fields := userAgeSchemaFields ++ [(nm "q", .gen (.unionA [.strT] false))]
    supplied := [] }

/-- A request over the `User` schema supplying the base parameter `page`
alongside the model filter `age`. -/
def userPageInstance : QueryInstance :=
  { model := some userModel
    search_mth := Option.none
    schema_fields := userAgeSchemaFields
    supplied := [(nm "page", .plain (.int 1)), (nm "age", .plain (.int 30))]
    page := 1 }

/-- The claim-side comparator map of C6: eq to equality (membership `in_`
for the membership variant), ne to inequality (`not_in` for membership),
the ordering operators to their matching comparator, like/ilike to the
pattern matches. -/
def claim_comparator (cond : Conditions) (multi : Bool) : SAOp :=
  match cond, multi with
  | .eq, true => .in_
  | .eq, false => .eq
  | .ne, true => .not_in
  | .ne, false => .ne
  | .gt, _ => .gt
  | .lt, _ => .lt
  | .ge, _ => .ge
  | .le, _ => .le
  | .like, _ => .like
  | .ilike, _ => .ilike

/-- A store row of the `User` table with the given age. -/
def rowOfAge (n : Int) : Row :=
  fun k => if k = nm "age" then .int n else .none

/-- A three-row `User` table. -/
def sampleTable : List Row := [rowOfAge 10, rowOfAge 30, rowOfAge 30]

/-- A request over the `User` schema filtering `age = 30` with
`per_page = 2`. -/
def pagedInstance : QueryInstance :=
  { model := some userModel
    search_mth := Option.none
    schema_fields := userAgeSchemaFields
    supplied := [(nm "age", .plain (.int 30))]
    per_page := some 2 }

/-! ### Lemmas about the filter-name encoding -/

theorem sub_of_suffix {s l : List Char} (h : s <:+ l) : s <:+: l := by
  obtain ⟨t, rfl⟩ := h
  exact ⟨t, [], by simp⟩

theorem sub_of_pref {s l : List Char} (h : s <+: l) : s <:+: l := by
  obtain ⟨t, rfl⟩ := h
  exact ⟨[], t, by simp⟩

theorem sub_trans {a b c : List Char} (h₁ : a <:+: b) (h₂ : b <:+: c) :
    a <:+: c := by
  obtain ⟨u, v, rfl⟩ := h₁
  obtain ⟨w, z, rfl⟩ := h₂
  exact ⟨w ++ u, v ++ z, by simp⟩

theorem no_uu_cons {a b : Char} {f : List Char}
    (h : ¬ ['_', '_'] <:+: a :: b :: f) :
    ¬ (a = '_' ∧ b = '_') ∧ ¬ ['_', '_'] <:+: b :: f := by
  constructor
  · rintro ⟨rfl, rfl⟩
    exact h (sub_of_pref ⟨f, rfl⟩)
  · intro hin
    exact h (sub_trans hin ⟨[a], [], by simp⟩)

theorem splitUU_cons (a b : Char) (l : List Char) (hab : ¬ (a = '_' ∧ b = '_')) :
    splitUU (a :: b :: l) = consHead a (splitUU (b :: l)) := by
  simp only [splitUU, if_neg hab]

theorem splitUU_no_sep : ∀ (f : List Char), ¬ ['_', '_'] <:+: f → splitUU f = [f]
  | [], _ => rfl
  | [_], _ => rfl
  | a :: b :: f, h => by
    obtain ⟨hab, hf⟩ := no_uu_cons h
    rw [splitUU_cons a b f hab, splitUU_no_sep (b :: f) hf]
    rfl
  termination_by f => f.length
  decreasing_by
    simp only [List.length_cons]
    omega

theorem splitUU_sep_append :
    ∀ (f c : List Char), ¬ ['_', '_'] <:+: f → f.getLast? ≠ some '_' →
      splitUU (f ++ '_' :: '_' :: c) = f :: splitUU c
  | [], c, _, _ => by simp [splitUU]
  | [a], c, _, hl => by
    have ha : a ≠ '_' := by simpa using hl
    show splitUU (a :: '_' :: '_' :: c) = [a] :: splitUU c
    rw [splitUU_cons a '_' ('_' :: c) (by simp [ha])]
    rw [show splitUU ('_' :: '_' :: c) = [] :: splitUU c from by
      simp [splitUU]]
    rfl
  | a :: b :: f, c, h, hl => by
    obtain ⟨hab, hf⟩ := no_uu_cons h
    have hl' : (b :: f).getLast? ≠ some '_' := by
      rwa [List.getLast?_cons_cons] at hl
    have ih : splitUU (b :: (f ++ '_' :: '_' :: c)) = (b :: f) :: splitUU c :=
      splitUU_sep_append (b :: f) c hf hl'
    show splitUU (a :: b :: (f ++ '_' :: '_' :: c)) = (a :: b :: f) :: splitUU c
    rw [splitUU_cons a b (f ++ '_' :: '_' :: c) hab, ih]
    rfl
  termination_by f _ => f.length
  decreasing_by
    simp only [List.length_cons]
    omega

theorem suffix_append_ge :
    ∀ (f : List Char) {s x : List Char}, s.length ≤ x.length →
      (s <:+ f ++ x ↔ s <:+ x)
  | [], _, _, _ => by simp
  | a :: f, s, x, h => by
    rw [List.cons_append, List.suffix_cons_iff]
    constructor
    · rintro (rfl | hs)
      · exfalso
        simp only [List.length_cons, List.length_append] at h
        omega
      · exact (suffix_append_ge f h).mp hs
    · intro hs
      exact Or.inr ((suffix_append_ge f h).mpr hs)

theorem parse_name_eq (f : List Char) (h1 : ¬ ['_', '_'] <:+: f) :
    parse_filter f = .ok (f, .eq, false) ∧
    parse_filter (f ++ nm "__in") = .ok (f, .eq, true) := by
  constructor
  · have hm : ¬ (nm "__in") <:+ f := fun hs =>
      h1 (sub_trans (sub_of_pref ⟨['i', 'n'], rfl⟩) (sub_of_suffix hs))
    simp only [parse_filter, decide_eq_false hm]
    rw [if_neg (by simp)]
    rw [splitUU_no_sep f h1]
  · have hm : (nm "__in") <:+ f ++ nm "__in" := List.suffix_append f (nm "__in")
    simp only [parse_filter, decide_eq_true hm, if_true]
    have hlen : (f ++ nm "__in").length - 4 = f.length := by
      rw [List.length_append, show (nm "__in").length = 4 from rfl]
      omega
    rw [hlen, List.take_left, splitUU_no_sep f h1]

theorem parse_name_cond (f cv : List Char) (cond : Conditions)
    (h1 : ¬ ['_', '_'] <:+: f) (h2 : f.getLast? ≠ some '_')
    (hcv1 : ¬ ['_', '_'] <:+: cv) (hlen : 2 ≤ cv.length)
    (hs : ¬ (nm "__in") <:+ ('_' :: '_' :: cv))
    (hcond : condOfValue cv = some cond) :
    parse_filter (f ++ '_' :: '_' :: cv) = .ok (f, cond, false) ∧
    parse_filter ((f ++ '_' :: '_' :: cv) ++ nm "__in") = .ok (f, cond, true) := by
  have hsplit : splitUU (f ++ '_' :: '_' :: cv) = [f, cv] := by
    rw [splitUU_sep_append f cv h1 h2, splitUU_no_sep cv hcv1]
  constructor
  · have hle : (nm "__in").length ≤ ('_' :: '_' :: cv).length := by
      rw [show (nm "__in").length = 4 from rfl]
      simp only [List.length_cons]
      omega
    have hm : ¬ (nm "__in") <:+ f ++ '_' :: '_' :: cv := fun hsuf =>
      hs ((suffix_append_ge f hle).mp hsuf)
    simp only [parse_filter, decide_eq_false hm]
    rw [if_neg (by simp)]
    rw [hsplit]
    simp [hcond]
  · have hm : (nm "__in") <:+ (f ++ '_' :: '_' :: cv) ++ nm "__in" :=
      List.suffix_append _ _
    simp only [parse_filter, decide_eq_true hm, if_true]
    have hl : ((f ++ '_' :: '_' :: cv) ++ nm "__in").length - 4 =
        (f ++ '_' :: '_' :: cv).length := by
      rw [List.length_append (f ++ '_' :: '_' :: cv) (nm "__in"),
        show (nm "__in").length = 4 from rfl]
      omega
    rw [hl, List.take_left, hsplit]
    simp [hcond]

theorem roundtrip_aux (f cv : List Char) (cond : Conditions)
    (h1 : ¬ ['_', '_'] <:+: f) (h2 : f.getLast? ≠ some '_')
    (hbare : parse_filter f = .ok (f, .eq, false))
    (hcv1 : ¬ ['_', '_'] <:+: cv) (hlen : 2 ≤ cv.length)
    (hs : ¬ (nm "__in") <:+ ('_' :: '_' :: cv))
    (hcond : condOfValue cv = some cond)
    (hval : cond.value = cv) (hne : ¬ cond = .eq) :
    parse_filter (field_names f cond).1 = .ok (f, cond, false) ∧
    parse_filter (field_names f cond).2.2 = .ok (f, cond, true) ∧
    parse_filter f = .ok (f, .eq, false) := by
  have h := parse_name_cond f cv cond h1 h2 hcv1 hlen hs hcond
  have e1 : (f ++ nm "__") ++ cv = f ++ '_' :: '_' :: cv := by
    rw [List.append_assoc]
    rfl
  refine ⟨?_, ?_, hbare⟩
  · simp only [field_names, if_neg hne]
    rw [hval, e1]
    exact h.1
  · simp only [field_names, if_neg hne]
    rw [hval, e1]
    exact h.2

/-- C7 (counterexample): for the field name `a_` — which contains no double
underscore — and the operator `gt`, parsing the generated scalar name
`a___gt` does not recover `(a_, gt, not-membership)`: the name splits as
`a` / `_gt` and the operator lookup raises KeyError. -/
theorem c7_roundtrip_counterexample :
    parse_filter (field_names (nm "a_") .gt).1 ≠
      .ok (nm "a_", Conditions.gt, false) ∧
    parse_filter (field_names (nm "a_") .gt).1 = .error (nm "KeyError") := by
  exact ⟨by decide, by decide⟩

/-- C7 (amended): for every field name that contains no double underscore
and does not end in an underscore, and every operator in the vocabulary,
parsing the generated scalar name recovers exactly (field, operator,
not-membership), parsing the generated membership name recovers exactly
(field, operator, membership), and parsing the bare field name recovers
(field, eq, not-membership). -/
theorem c7_filter_name_roundtrip (f : List Char) (cond : Conditions)
    (h1 : ¬ ['_', '_'] <:+: f) (h2 : f.getLast? ≠ some '_') :
    parse_filter (field_names f cond).1 = .ok (f, cond, false) ∧
    parse_filter (field_names f cond).2.2 = .ok (f, cond, true) ∧
    parse_filter f = .ok (f, .eq, false) := by
  have heq := parse_name_eq f h1
  cases cond
  case eq =>
    refine ⟨?_, ?_, heq.1⟩
    · simpa only [field_names, if_pos rfl] using heq.1
    · simpa only [field_names, if_pos rfl] using heq.2
  case ne => exact roundtrip_aux f (nm "ne") .ne h1 h2 heq.1 (by decide) (by decide) (by decide) (by decide) rfl (by decide)
  case gt => exact roundtrip_aux f (nm "gt") .gt h1 h2 heq.1 (by decide) (by decide) (by decide) (by decide) rfl (by decide)
  case lt => exact roundtrip_aux f (nm "lt") .lt h1 h2 heq.1 (by decide) (by decide) (by decide) (by decide) rfl (by decide)
  case ge => exact roundtrip_aux f (nm "ge") .ge h1 h2 heq.1 (by decide) (by decide) (by decide) (by decide) rfl (by decide)
  case le => exact roundtrip_aux f (nm "le") .le h1 h2 heq.1 (by decide) (by decide) (by decide) (by decide) rfl (by decide)
  case like => exact roundtrip_aux f (nm "like") .like h1 h2 heq.1 (by decide) (by decide) (by decide) (by decide) rfl (by decide)
  case ilike => exact roundtrip_aux f (nm "ilike") .ilike h1 h2 heq.1 (by decide) (by decide) (by decide) (by decide) rfl (by decide)

/-- C7 (witness): the round-trip theorem applied to the field `age` and the
operator `gt`. -/
theorem c7_filter_name_roundtrip_witness :
    parse_filter (field_names (nm "age") .gt).1 = .ok (nm "age", .gt, false) ∧
    parse_filter (field_names (nm "age") .gt).2.2 = .ok (nm "age", .gt, true) ∧
    parse_filter (nm "age") = .ok (nm "age", .eq, false) :=
  c7_filter_name_roundtrip (nm "age") .gt (by decide) (by decide)

/-- C1 (code evaluation at the failing input): supplying only the
operator-suffixed filter `age__gt = 5` over the `User` model yields zero
compiled filter pairs, and the compiled WHERE predicate is `and_(True)` —
the universally-true predicate — instead of carrying an `age > 5`
conjunct: `model_filters` tests the raw name `age__gt` against the model's
attributes without parsing off the operator suffix. -/
theorem c1_suffixed_filter_dropped :
    model_filters userModel ageGtInstance = [] ∧
    where_from_filters userModel ageGtInstance = .ok (.and_ [.true_]) :=
  ⟨rfl, rfl⟩

/-- C8 (code evaluation at the failing input): `update` of id 7 on an empty
store fails with NotFound, but the exception's kind is the metaclass name
`SQLModelMetaclass` (`model.__class__.__name__`), not the model kind
`User`; `upsert` on the same input succeeds, applies the bulk assignment
to a fresh instance (primary key untouched), and stages exactly that
instance. -/
theorem c8_update_upsert_on_missing_id :
    db_update (DbSession.mk [] []) userModel 7 [(nm "name", .str (nm "bob"))] =
      .error (NotFoundExc.mk (nm "SQLModelMetaclass") 7) ∧
    (NotFoundExc.mk (nm "SQLModelMetaclass") 7).kind ≠ userModel.name ∧
    (db_upsert (DbSession.mk [] []) userModel 7
        [(nm "name", .str (nm "bob"))]).2 (nm "name") = some (.str (nm "bob")) ∧
    (db_upsert (DbSession.mk [] []) userModel 7
        [(nm "name", .str (nm "bob"))]).2 (nm "id") = Option.none ∧
    (db_upsert (DbSession.mk [] []) userModel 7
        [(nm "name", .str (nm "bob"))]).1.staged.length = 1 :=
  ⟨rfl, by decide, rfl, rfl, rfl⟩

/-- C9 (counterexample): schema synthesis is not total — `build` with an
empty field list raises IndexError on `fields[0]`, and with a field not
among the model's declared fields raises KeyError, instead of returning an
empty schema. -/
theorem c9_build_not_total :
    build [] Option.none [] = .error (nm "IndexError") ∧
    build [FieldRef.mk (nm "nope") userModel] Option.none [] =
      .error (nm "KeyError") :=
  ⟨by decide, by decide⟩

/-! ### C3: the bulk field assignment of `DbModel.update` -/

theorem model_update_cons (m : SQLModel) (inst : Inst)
    (kv : List Char × PyVal) (rest : List (List Char × PyVal)) :
    model_update m inst (kv :: rest) =
      model_update m (model_update_step m inst kv) rest := rfl

theorem lookup_none_of_not_mem_keys :
    ∀ (data : List (List Char × PyVal)) (k : List Char),
      k ∉ data.map Prod.fst → data.lookup k = Option.none
  | [], _, _ => rfl
  | (k', _) :: rest, k, h => by
    have hk : ¬ k = k' := fun e => h (by simp [e])
    have hr : k ∉ rest.map Prod.fst := fun e => h (by simp [e])
    simp only [List.lookup, beq_eq_false_iff_ne.mpr hk]
    exact lookup_none_of_not_mem_keys rest k hr

theorem model_update_step_ne (m : SQLModel) (inst : Inst)
    (kv : List Char × PyVal) (k : List Char) (hk : k ≠ kv.1) :
    model_update_step m inst kv k = inst k := by
  unfold model_update_step
  cases m.model_fields.lookup kv.1 with
  | none => rfl
  | some fi =>
    by_cases hpk : fi.hasPrimaryKeyAttr <;> simp [hpk, hk]

theorem model_update_not_mem (m : SQLModel) (k : List Char) :
    ∀ (data : List (List Char × PyVal)) (inst : Inst),
      data.lookup k = Option.none → model_update m inst data k = inst k
  | [], _, _ => rfl
  | (k', v') :: rest, inst, h => by
    cases hkb : (k == k') with
    | true =>
      rw [show ((k', v') :: rest).lookup k = some v' from by
        simp [List.lookup, hkb]] at h
      exact absurd h (by simp)
    | false =>
      have hr : rest.lookup k = Option.none := by
        rwa [show ((k', v') :: rest).lookup k = rest.lookup k from by
          simp [List.lookup, hkb]] at h
      rw [model_update_cons,
        model_update_not_mem m k rest (model_update_step m inst (k', v')) hr]
      exact model_update_step_ne m inst (k', v') k (by simpa using hkb)

/-- C3: for every model, instance and data mapping (with the distinct keys
of a Python dict), the bulk assignment of `DbModel.update` maps each field
named in the data to its mapped value, except that names outside the
model's declared fields and fields whose FieldInfo carries the
`primary_key` attribute are skipped (left unchanged); every field not named
in the data keeps its previous value. -/
theorem c3_bulk_assignment (m : SQLModel) (inst : Inst)
    (data : List (List Char × PyVal)) (hnd : (data.map Prod.fst).Nodup) :
    ∀ k, model_update m inst data k =
      match data.lookup k, m.model_fields.lookup k with
      | some v, some fi => if fi.hasPrimaryKeyAttr then inst k else some v
      | some _, Option.none => inst k
      | Option.none, _ => inst k := by
  induction data generalizing inst with
  | nil =>
    intro k
    cases m.model_fields.lookup k <;> rfl
  | cons kv rest ih =>
    obtain ⟨k₀, v₀⟩ := kv
    rw [List.map_cons, List.nodup_cons] at hnd
    intro k
    rw [model_update_cons]
    by_cases hk : k = k₀
    · subst hk
      have hr : rest.lookup k = Option.none :=
        lookup_none_of_not_mem_keys rest k hnd.1
      rw [model_update_not_mem m k rest _ hr]
      rw [show ((k, v₀) :: rest).lookup k = some v₀ from by simp [List.lookup]]
      unfold model_update_step
      cases m.model_fields.lookup k with
      | none => rfl
      | some fi => by_cases hpk : fi.hasPrimaryKeyAttr <;> simp [hpk]
    · have hstep : model_update_step m inst (k₀, v₀) k = inst k :=
        model_update_step_ne m inst (k₀, v₀) k hk
      rw [ih (model_update_step m inst (k₀, v₀)) hnd.2 k]
      rw [show ((k₀, v₀) :: rest).lookup k = rest.lookup k from by
        simp [List.lookup, beq_eq_false_iff_ne.mpr hk]]
      cases rest.lookup k <;> cases m.model_fields.lookup k <;>
        simp [hstep]

/-- C3 (witness): the theorem applied to the `User` model, an instance with
`id = 1, age = 30`, and the data `{id: 9, name: "bob", ghost: 2}` — `name`
is assigned, the primary key `id` and the undeclared `ghost` are skipped,
and the untouched `age` keeps its value. -/
theorem c3_bulk_assignment_witness :
    model_update userModel
      (fun k => if k = nm "id" then some (.int 1)
        else if k = nm "age" then some (.int 30) else Option.none)
      [(nm "id", .int 9), (nm "name", .str (nm "bob")), (nm "ghost", .int 2)]
      (nm "name") = some (.str (nm "bob")) ∧
    model_update userModel
      (fun k => if k = nm "id" then some (.int 1)
        else if k = nm "age" then some (.int 30) else Option.none)
      [(nm "id", .int 9), (nm "name", .str (nm "bob")), (nm "ghost", .int 2)]
      (nm "id") = some (.int 1) ∧
    model_update userModel
      (fun k => if k = nm "id" then some (.int 1)
        else if k = nm "age" then some (.int 30) else Option.none)
      [(nm "id", .int 9), (nm "name", .str (nm "bob")), (nm "ghost", .int 2)]
      (nm "ghost") = Option.none ∧
    model_update userModel
      (fun k => if k = nm "id" then some (.int 1)
        else if k = nm "age" then some (.int 30) else Option.none)
      [(nm "id", .int 9), (nm "name", .str (nm "bob")), (nm "ghost", .int 2)]
      (nm "age") = some (.int 30) := by
  have h := c3_bulk_assignment userModel
    (fun k => if k = nm "id" then some (.int 1)
      else if k = nm "age" then some (.int 30) else Option.none)
    [(nm "id", .int 9), (nm "name", .str (nm "bob")), (nm "ghost", .int 2)]
    (by decide)
  refine ⟨?_, ?_, ?_, ?_⟩
  · exact (h (nm "name")).trans rfl
  · exact (h (nm "id")).trans rfl
  · exact (h (nm "ghost")).trans rfl
  · exact (h (nm "age")).trans rfl

/-! ### C10, C2, C6 -/

theorem model_filters_mem_chr (M : SQLModel) (inst : QueryInstance)
    (kv : List Char × FilterVal) (h : kv ∈ model_filters M inst) :
    ∃ a, (kv.1, a) ∈ inst.schema_fields ∧
      ((M.model_fields.map (fun p => p.1)).contains kv.1 || a.hasSqlCond) = true := by
  unfold model_filters at h
  rw [List.mem_filterMap] at h
  obtain ⟨kf, hkf, heq⟩ := h
  cases hsup : inst.supplied.lookup kf.1 with
  | none =>
    rw [hsup] at heq
    exact absurd heq (by simp)
  | some v =>
    rw [hsup] at heq
    have heq2 : (if ((M.model_fields.map (fun p => p.1)).contains kf.1
          || kf.2.hasSqlCond) = true
        then some (kf.1, v) else Option.none) = some kv := heq
    by_cases hc : ((M.model_fields.map (fun p => p.1)).contains kf.1
        || kf.2.hasSqlCond) = true
    · rw [if_pos hc] at heq2
      injection heq2 with h2
      subst h2
      exact ⟨kf.2, by simpa using hkf, hc⟩
    · rw [if_neg hc] at heq2
      exact absurd heq2 (by simp)

/-- C10 (amended): provided none of the base parameter names `page`,
`per_page`, `order_by`, `project` is among the model's own field names, and
the schema's base-named fields do not carry a custom-predicate annotation,
supplying base parameters never adds a conjunct to the compiled WHERE
predicate; moreover the predicate is built only from supplied fields that
are attributes of the target model or whose declared annotation carries
`_sql_cond`. -/
theorem c10_base_params_never_filter (M : SQLModel) (inst : QueryInstance)
    (hb : ∀ b ∈ base_fields, ¬ b ∈ M.model_fields.map (fun p => p.1))
    (hann : ∀ kf ∈ inst.schema_fields,
      kf.1 ∈ base_fields → kf.2.hasSqlCond = false) :
    (∀ kv ∈ model_filters M inst, ¬ kv.1 ∈ base_fields) ∧
    (∀ kv ∈ model_filters M inst,
      kv.1 ∈ M.model_fields.map (fun p => p.1) ∨
      ∃ a, (kv.1, a) ∈ inst.schema_fields ∧ a.hasSqlCond = true) := by
  constructor
  · intro kv hkv hbase
    obtain ⟨a, hmem, hcond⟩ := model_filters_mem_chr M inst kv hkv
    rw [Bool.or_eq_true] at hcond
    rcases hcond with hcond | hcond
    · exact hb kv.1 hbase (by simpa using hcond)
    · simp [hann (kv.1, a) hmem hbase] at hcond
  · intro kv hkv
    obtain ⟨a, hmem, hcond⟩ := model_filters_mem_chr M inst kv hkv
    rw [Bool.or_eq_true] at hcond
    rcases hcond with hcond | hcond
    · exact Or.inl (by simpa using hcond)
    · exact Or.inr ⟨a, hmem, hcond⟩

/-- C10 (witness): the amended theorem applied to the `User` model, whose
field names are disjoint from the base parameter names, and a request
supplying `page = 1` and `age = 30`. -/
theorem c10_base_params_never_filter_witness :
    (∀ kv ∈ model_filters userModel userPageInstance, ¬ kv.1 ∈ base_fields) ∧
    (∀ kv ∈ model_filters userModel userPageInstance,
      kv.1 ∈ userModel.model_fields.map (fun p => p.1) ∨
      ∃ a, (kv.1, a) ∈ userPageInstance.schema_fields ∧ a.hasSqlCond = true) :=
  c10_base_params_never_filter userModel userPageInstance (by decide) (by decide)

/-- C6: for every supplied (field, operator, value) filter without a custom
override whose name parses to `(attr, cond, multi)` — with the membership
flag only arising for the equality family, as generated schemas guarantee —
the compiled atomic predicate compares the model attribute with the store
comparator determined by the claim's mapping, with the value wrapped in `%`
wildcards on both sides for the pattern operators. -/
theorem c6_operator_mapping (M : SQLModel) (field attr : List Char)
    (cond : Conditions) (multi : Bool) (v : PyVal)
    (hp : parse_filter field = .ok (attr, cond, multi))
    (hattr : (M.model_fields.lookup attr).isSome = true)
    (hmulti : multi = true → cond = .eq ∨ cond = .ne) :
    sql_cond M field (.plain v) =
      .ok (.cond attr (claim_comparator cond multi)
        (if Conditions.likes.contains cond then
          .str ('%' :: strOfVal v ++ ['%'])
        else v)) := by
  unfold sql_cond
  rw [hp]
  cases cond <;> cases multi <;>
    first
    | exact absurd (hmulti rfl) (by decide)
    | simp [claim_comparator, hattr, Except.bind, bind, Conditions.likes]

/-- C6 (witness): the operator-mapping theorem applied to the filter
`age__gt = 5` over the `User` model. -/
theorem c6_operator_mapping_witness :
    sql_cond userModel (nm "age__gt") (.plain (.int 5)) =
      .ok (.cond (nm "age") .gt (.int 5)) := by
  have h := c6_operator_mapping userModel (nm "age__gt") (nm "age") .gt false
    (.int 5) (by decide) (by decide) (by simp)
  exact h

/-- C2: for every model field given to the schema synthesizer — with the
nonempty type set produced by the classifier for any real field — the
generated filter parameters are exactly the claim's set: one scalar
parameter per legal operator (boolean fields admit only the equality
family, string fields everything but the ordering family, other scalar
fields everything but the pattern family), plus one membership parameter
accepting a sequence of the field's value types for each equality-family
operator on a non-boolean field, and nothing else. -/
theorem c2_generated_params (fname : List Char) (types : List PyType)
    (descr : Option (List Char)) (h : types ≠ []) :
    field_filter_attrs fname types descr =
      .ok (claimFieldParams fname types descr) := by
  have hleg : ∀ cond, cond_valid_for cond types = claimLegal cond types := by
    intro cond
    unfold cond_valid_for claimLegal
    by_cases hb : PyType.boolT ∈ types <;>
      by_cases hs : PyType.strT ∈ types <;> simp [hb, hs]
  cases types with
  | nil => exact absurd rfl h
  | cons a t =>
    unfold field_filter_attrs claimFieldParams
    simp only [List.isEmpty_cons, Bool.false_eq_true, if_false, hleg]

/-- C2 (witness): the theorem applied to an `int`-typed field `age`. -/
theorem c2_generated_params_witness :
    field_filter_attrs (nm "age") [.intT] Option.none =
      .ok (claimFieldParams (nm "age") [.intT] Option.none) :=
  c2_generated_params (nm "age") [.intT] Option.none (by decide)

/-! ### C5: search dispatch -/

theorem anyM_ok_of_pointwise {α : Type}
    (p : α → Except (List Char) Bool) (g : α → Bool) :
    ∀ (l : List α), (∀ x ∈ l, p x = .ok (g x)) → l.anyM p = .ok (l.any g)
  | [], _ => rfl
  | x :: rest, h => by
    have hx : p x = .ok (g x) := h x (by simp)
    have ih := anyM_ok_of_pointwise p g rest (fun y hy => h y (by simp [hy]))
    rw [List.anyM]
    rw [hx]
    cases hg : g x with
    | true => simp [hg, Except.bind, bind, List.any_cons, pure, Except.pure]
    | false => simp [hg, Except.bind, bind, List.any_cons, ih, pure, Except.pure]

theorem has_custom_filters_eq (inst : QueryInstance) (M : SQLModel)
    (hm : inst.model = some M)
    (hp : ∀ kf ∈ inst.schema_fields, isOkE (parse_filter kf.1) = true) :
    has_custom_filters inst = .ok (claim_declares_custom M inst) := by
  unfold has_custom_filters claim_declares_custom
  rw [hm]
  apply anyM_ok_of_pointwise
  intro kf hkf
  cases hparse : parse_filter kf.1 with
  | error e =>
    have := hp kf hkf
    rw [hparse] at this
    exact absurd this (by simp [isOkE])
  | ok trip =>
    obtain ⟨k, c, mb⟩ := trip
    simp [hparse, Except.bind, bind, pure, Except.pure]

/-- C5: for every parameter instance over a model whose declared field
names all parse, `search` dispatches to the facade method named by the
schema's search-method name if and only if the schema declares a field
outside the base parameters and the model's fields without a
custom-predicate override; if such dispatch is required and the method is
absent (or the name is None), search fails with the fatal
NotImplementedError; otherwise it compiles, assembles and executes the
query and its count twin, returning the rows and total. -/
theorem c5_search_dispatch (table : List Row) (le : Row → Row → Bool)
    (facade : List (List Char)) (inst : QueryInstance) (M : SQLModel)
    (hm : inst.model = some M)
    (hp : ∀ kf ∈ inst.schema_fields, isOkE (parse_filter kf.1) = true) :
    db_search table le facade inst =
      if claim_declares_custom M inst then
        match inst.search_mth with
        | some m =>
          if facade.contains m then .ok (.dispatched m)
          else .error (nm "NotImplementedError")
        | Option.none => .error (nm "NotImplementedError")
      else (search_exec table le inst).map (fun rt => .results rt.1 rt.2) := by
  unfold db_search
  rw [has_custom_filters_eq inst M hm hp]
  cases hb : claim_declares_custom M inst with
  | true =>
    cases hmth : inst.search_mth with
    | none => simp [Except.bind, bind, pure, Except.pure]
    | some m =>
      by_cases hfc : facade.contains m <;> simp [Except.bind, bind, hfc, pure, Except.pure]
  | false =>
    cases hse : search_exec table le inst with
    | error e => simp [Except.bind, bind, hse, Except.map, pure, Except.pure]
    | ok rt => simp [Except.bind, bind, hse, Except.map, pure, Except.pure]

/-! ### C4: pagination and the count twin -/

theorem isortInsert_length {α : Type} (le : α → α → Bool) (x : α) :
    ∀ (l : List α), (isortInsert le x l).length = l.length + 1
  | [] => rfl
  | y :: ys => by
    unfold isortInsert
    by_cases h : le x y <;> simp [h, isortInsert_length le x ys]

theorem isort_length {α : Type} (le : α → α → Bool) :
    ∀ (l : List α), (isort le l).length = l.length
  | [] => rfl
  | x :: xs => by
    unfold isort
    rw [isortInsert_length le x (isort le xs), isort_length le xs]
    rfl

theorem search_exec_ok (table : List Row) (le : Row → Row → Bool)
    (inst : QueryInstance) (base q : SAQuery) (cq : Option SAQuery)
    (hq : query_from_filters inst = .ok base)
    (hpag : pagination_queries inst base = (q, cq)) :
    search_exec table le inst = .ok (search_data table le inst q,
      match cq.map (runCount table) with
      | some c => if c ≠ 0 then c else (search_data table le inst q).length
      | Option.none => (search_data table le inst q).length) := by
  unfold search_exec
  rw [hq]
  simp only [Except.bind, bind, hpag, pure, Except.pure]

theorem runRows_nil (table : List Row) (le : Row → Row → Bool) (q : SAQuery)
    (h : table.filter (fun r => evalExpr r q.whereE) = []) :
    runRows table le q = [] := by
  unfold runRows
  rw [h]
  cases ho : q.order.isEmpty <;> cases q.off <;> cases q.lim <;>
    simp [isort, ho]

theorem search_data_nil (table : List Row) (le : Row → Row → Bool)
    (inst : QueryInstance) (q : SAQuery) (h : runRows table le q = []) :
    search_data table le inst q = [] := by
  unfold search_data
  rw [h]
  cases hp : inst.project with
  | none => rfl
  | some l => cases l <;> simp

/-- C4: for every instance whose query compiles to `base`: when `per_page`
is a truthy value `pp`, query assembly derives the count twin from the
still-unpaginated query (same WHERE, columns replaced by the count
aggregate, ordering stripped), applies `limit = pp` and
`offset = page * pp` to the main query, and the returned total equals the
count twin's result — the unpaginated matching-row count; when `per_page`
is not truthy, no limit/offset is applied, no count query is produced, and
the returned total equals the number of rows returned. -/
theorem c4_pagination_and_count (table : List Row) (le : Row → Row → Bool)
    (inst : QueryInstance) (base : SAQuery)
    (hq : query_from_filters inst = .ok base) :
    (∀ pp, inst.per_page = some pp → pp ≠ 0 →
      pagination_queries inst base =
        ({ base with lim := some pp, off := some (instOffset inst pp) },
          some { base with cols := QCols.countStar, order := [] }) ∧
      runCount table { base with cols := QCols.countStar, order := [] } =
        (table.filter (fun r => evalExpr r base.whereE)).length ∧
      ∃ rows, search_exec table le inst =
        .ok (rows, (table.filter (fun r => evalExpr r base.whereE)).length)) ∧
    (truthyInt inst.per_page = false →
      pagination_queries inst base = (base, Option.none) ∧
      ∃ rows, search_exec table le inst = .ok (rows, rows.length)) := by
  constructor
  · intro pp hpp hpp0
    have hpag : pagination_queries inst base =
        ({ base with lim := some pp, off := some (instOffset inst pp) },
          some { base with cols := QCols.countStar, order := [] }) := by
      unfold pagination_queries count_query
      simp only [hpp]
      rw [if_pos (by simpa using hpp0)]
    refine ⟨hpag, rfl, ?_⟩
    have hse := search_exec_ok table le inst base _ _ hq hpag
    refine ⟨search_data table le inst
      { base with lim := some pp, off := some (instOffset inst pp) }, ?_⟩
    rw [hse]
    have hcnt : runCount table { base with cols := QCols.countStar, order := [] } =
        (table.filter (fun r => evalExpr r base.whereE)).length := rfl
    by_cases hz : (table.filter (fun r => evalExpr r base.whereE)).length = 0
    · have hmat : table.filter (fun r => evalExpr r base.whereE) = [] :=
        List.length_eq_zero.mp hz
      have hrr : runRows table le
          { base with lim := some pp, off := some (instOffset inst pp) } = [] :=
        runRows_nil _ _ _ hmat
      have hsd := search_data_nil table le inst _ hrr
      simp [hcnt, hz, hsd, hmat]
    · simp [hcnt, hz]
  · intro htr
    have hpag : pagination_queries inst base = (base, Option.none) := by
      unfold pagination_queries
      cases hpp : inst.per_page with
      | none => rfl
      | some pp =>
        have hb : (pp != 0) = false := by
          unfold truthyInt at htr
          rw [hpp] at htr
          exact htr
        simp only [hpp]
        rw [if_neg (by simp [hb])]
    refine ⟨hpag, ?_⟩
    have hse := search_exec_ok table le inst base base Option.none hq hpag
    refine ⟨search_data table le inst base, ?_⟩
    rw [hse]
    rfl

/-- C4 (witness): the pagination theorem applied to a three-row table and
the request `age = 30, perPage = 2`. -/
theorem c4_pagination_and_count_witness :
    (∀ pp, pagedInstance.per_page = some pp → pp ≠ 0 →
      pagination_queries pagedInstance
          (SAQuery.mk QCols.model
            (.and_ [.true_, .cond (nm "age") .eq (.int 30)]) []
            Option.none Option.none) =
        ({ SAQuery.mk QCols.model
            (.and_ [.true_, .cond (nm "age") .eq (.int 30)]) []
            Option.none Option.none with
            lim := some pp, off := some (instOffset pagedInstance pp) },
          some { SAQuery.mk QCols.model
            (.and_ [.true_, .cond (nm "age") .eq (.int 30)]) []
            Option.none Option.none with
            cols := QCols.countStar, order := [] }) ∧
      runCount sampleTable { SAQuery.mk QCols.model
            (.and_ [.true_, .cond (nm "age") .eq (.int 30)]) []
            Option.none Option.none with
            cols := QCols.countStar, order := [] } =
        (sampleTable.filter (fun r => evalExpr r
          (.and_ [.true_, .cond (nm "age") .eq (.int 30)]))).length ∧
      ∃ rows, search_exec sampleTable (fun _ _ => true) pagedInstance =
        .ok (rows, (sampleTable.filter (fun r => evalExpr r
          (.and_ [.true_, .cond (nm "age") .eq (.int 30)]))).length)) ∧
    (truthyInt pagedInstance.per_page = false →
      pagination_queries pagedInstance
          (SAQuery.mk QCols.model
            (.and_ [.true_, .cond (nm "age") .eq (.int 30)]) []
            Option.none Option.none) =
        (SAQuery.mk QCols.model
            (.and_ [.true_, .cond (nm "age") .eq (.int 30)]) []
            Option.none Option.none, Option.none) ∧
      ∃ rows, search_exec sampleTable (fun _ _ => true) pagedInstance =
        .ok (rows, rows.length)) :=
  c4_pagination_and_count sampleTable (fun _ _ => true) pagedInstance
    (SAQuery.mk QCols.model (.and_ [.true_, .cond (nm "age") .eq (.int 30)])
      [] Option.none Option.none) rfl

/-- C5 (witness): the dispatch theorem applied to a schema over `User` with
the extra keyword field `q` and search method `search_users`, against a
facade defining that method. -/
theorem c5_search_dispatch_witness :
    db_search [] (fun _ _ => true) [nm "search_users"] customSchemaInstance =
      if claim_declares_custom userModel customSchemaInstance then
        match customSchemaInstance.search_mth with
        | some m =>
          if [nm "search_users"].contains m then .ok (.dispatched m)
          else .error (nm "NotImplementedError")
        | Option.none => .error (nm "NotImplementedError")
      else (search_exec [] (fun _ _ => true) customSchemaInstance).map
        (fun rt => .results rt.1 rt.2) :=
  c5_search_dispatch [] (fun _ _ => true) [nm "search_users"]
    customSchemaInstance userModel rfl (by decide)

/-! ### C9: totality of schema synthesis -/

theorem fffa_ok (f : FieldRef) (model : SQLModel)
    (h1 : (model.model_fields.lookup f.name).isSome = true)
    (h2 : (f.parent.model_fields.lookup f.name).isSome = true)
    (h3 : normalize_field_types f ≠ .ok []) :
    ∃ out, field_filter_attrs_full f model = .ok out := by
  obtain ⟨pf, hpf⟩ := Option.isSome_iff_exists.mp h1
  obtain ⟨fi, hfi⟩ := Option.isSome_iff_exists.mp h2
  have hnorm : normalize_field_types f = .ok (((match fi.annotation with
      | .plain t => [t]
      | .union ts => (ts.filter (fun t => t ≠ PyType.noneT)).dedup).map
        (fun t => if t = PyType.emailT then PyType.strT else t)).dedup) := by
    unfold normalize_field_types
    simp only [hfi]
  have hT : (((match fi.annotation with
      | .plain t => [t]
      | .union ts => (ts.filter (fun t => t ≠ PyType.noneT)).dedup).map
        (fun t => if t = PyType.emailT then PyType.strT else t)).dedup) ≠ [] := by
    intro e
    exact h3 (hnorm.trans (by rw [e]))
  unfold field_filter_attrs_full
  simp only [hpf]
  rw [hnorm]
  simp only [Except.bind, bind, pure, Except.pure]
  unfold field_filter_attrs
  rw [if_neg (by simpa using hT)]
  exact ⟨_, rfl⟩

theorem build_fold_ok (model : SQLModel) :
    ∀ (l : List FieldRef) (acc : List (List Char × GenField)),
      (∀ f ∈ l, ∃ out, field_filter_attrs_full f model = .ok out) →
      ∃ d, l.foldlM (fun acc f => do
          let attrs ← field_filter_attrs_full f model
          pure (attrs.foldl
            (fun d (kv : List Char × GenField) => dictInsert d kv.1 kv.2) acc)) acc = .ok d
  | [], acc, _ => ⟨acc, rfl⟩
  | f :: rest, acc, h => by
    obtain ⟨out, hout⟩ := h f (by simp)
    obtain ⟨d, hd⟩ := build_fold_ok model rest
      (out.foldl (fun d (kv : List Char × GenField) => dictInsert d kv.1 kv.2) acc)
      (fun g hg => h g (by simp [hg]))
    refine ⟨d, ?_⟩
    rw [List.foldlM_cons, hout]
    simp only [Except.bind, bind, pure, Except.pure]
    exact hd

/-- C9 (amended): schema synthesis succeeds for every nonempty list of
fields that are declared among the build model's fields and their own
parent's fields with a nonempty normalized type set — the rest of `build`
(order-by/projection annotations, aliasing, merging, keyword fields) never
fails. -/
theorem c9_build_total (f0 : FieldRef) (rest : List FieldRef)
    (search_method : Option (List Char)) (kwfields : List (List Char × FAnn))
    (hdecl : ∀ f ∈ f0 :: rest, (f0.parent.model_fields.lookup f.name).isSome = true)
    (hown : ∀ f ∈ f0 :: rest, (f.parent.model_fields.lookup f.name).isSome = true)
    (hty : ∀ f ∈ f0 :: rest, normalize_field_types f ≠ .ok []) :
    ∃ s, build (f0 :: rest) search_method kwfields = .ok s := by
  have hall : ∀ f ∈ f0 :: rest, ∃ out, field_filter_attrs_full f f0.parent = .ok out :=
    fun f hf => fffa_ok f f0.parent (hdecl f hf) (hown f hf) (hty f hf)
  obtain ⟨d, hd⟩ := build_fold_ok f0.parent (f0 :: rest)
    [(nm "order_by",
      GenField.mk (.gen (order_by_annot f0.parent)) (some (nm "orderBy")) Option.none),
     (nm "project",
      GenField.mk (.gen (.literalListA (f0.parent.model_fields.map (fun kv => kv.1))))
        Option.none Option.none)] hall
  unfold build
  simp only [Except.bind, bind, pure, Except.pure] at hd ⊢
  rw [hd]
  exact ⟨_, rfl⟩

/-- C9 (witness): the amended totality theorem applied to the single
declared field `age` of the `User` model. -/
theorem c9_build_total_witness :
    ∃ s, build [FieldRef.mk (nm "age") userModel] Option.none [] = .ok s :=
  c9_build_total (FieldRef.mk (nm "age") userModel) [] Option.none []
    (by decide) (by decide) (by decide)

/-- C10 (counterexample): over a model that declares a column named `page`,
supplying the base pagination parameter `page = 1` does add a conjunct to
the compiled WHERE predicate (`Book.page == 1`), because the base-parameter
name collides with a model attribute. -/
theorem c10_base_param_adds_conjunct :
    (nm "page") ∈ (model_filters bookModel bookPageInstance).map
      (fun kv => kv.1) ∧
    where_from_filters bookModel bookPageInstance =
      .ok (.and_ [.true_, .cond (nm "page") .eq (.int 1)]) :=
  ⟨by decide, rfl⟩

end Restapy
